import Mathlib

/-!
Shallow embedding of `render_album.py`, a CLI tool that builds a single
cover video from a directory of WAV files by orchestrating an external
encoder (`ffmpeg`) in three sequential stages: per-track transcode to
FLAC (Normalizer), concatenation (Concatenator), and still-image video
render (Renderer).

The program is pure orchestration: it constructs argument vectors and
spawns external processes.  The embedding therefore models:
  - argument vectors as `List String`,
  - the environment (filesystem existence checks, path resolution,
    globbing, the scratch directory name picked by `tempfile`, and the
    behaviour of each spawned process) as a record of functions `Env`,
  - a run as a pure function from `Env` and parsed CLI arguments to an
    outcome: exit code, stdout lines, stderr lines, and an event trace
    (process spawns, scratch-directory creation and removal).

Python exceptions are modelled by `PipelineError`.  The distinction the
top-level guard makes is modelled faithfully: `except Exception` catches
`FileNotFoundError` and `RuntimeError` and prints the message with an
`Error: ` marker in front, while `raise SystemExit(msg)` is not an `Exception`
subclass, so the interpreter itself prints the bare message to stderr
and exits with status 1.
-/

namespace RenderAlbum

/-- An external command is its argument vector (`subprocess.run(cmd)`). -/
abbrev Cmd := List String

/-- The single-quote character (used unescaped in manifest lines). -/
def squote : Char := Char.ofNat 39

/-- The single-quote character as a one-character string. -/
def squoteStr : String := String.singleton squote

/-- Result of one spawned process: exit status and the captured combined
stdout+stderr stream (the source passes `stderr=subprocess.STDOUT`, so
the two streams are merged into one). -/
structure ProcResult where
  returncode : Int
  stdout : String
deriving Repr, DecidableEq

/-- Everything a run observes from the outside world:
  - `pathExists p`: whether `Path(p).exists()` holds,
  - `resolve p`: `Path(p).expanduser().resolve()` (path canonicalization),
  - `glob dir pat`: the raw (unsorted) result of `Path(dir).glob(pat)`,
  - `isFile p`: whether `Path(p).is_file()` holds,
  - `exec cmd`: the behaviour of the spawned process for a command vector,
  - `tmpdir`: the fresh directory name `tempfile.TemporaryDirectory()` picks. -/
structure Env where
  pathExists : String → Bool
  resolve : String → String
  glob : String → String → List String
  isFile : String → Bool
  exec : Cmd → ProcResult
  tmpdir : String

/-- Parsed CLI arguments, with the argparse defaults from the source. -/
structure Args where
  input : String
  cover : String := "cover.png"
  pattern : String := "*.wav"
  output : String := "FULL-GPU.mp4"

/-- Module-level constant `FRAMERATE = 30`. -/
def FRAMERATE : Nat := 30

/-- The exceptions the program can raise.
  - `missingPath` models `FileNotFoundError(f"Missing ...")` raised by
    `ensure_exists` (the spec calls it `MissingPathError`);
  - `noInputs` models `SystemExit("No WAV files found.")` (the spec calls
    it `NoInputsError`);
  - `commandFailed` models `RuntimeError(f"Command failed ...")` raised by
    `run` (the spec calls it `CommandFailedError`), carrying the exit
    code, the full argument vector, and the captured combined output. -/
inductive PipelineError where
  | missingPath (kind : String) (path : String)
  | noInputs
  | commandFailed (returncode : Int) (cmd : Cmd) (output : String)
deriving Repr, DecidableEq

/-- The message carried by each exception, exactly as the source formats
it (`str(exc)` for the top-level handler). -/
def errMessage : PipelineError → String
  | .missingPath kind path => "Missing " ++ kind ++ ": " ++ path
  | .noInputs => "No WAV files found."
  | .commandFailed rc cmd out =>
      "Command failed (" ++ toString rc ++ "): " ++ String.intercalate " " cmd ++ "\n" ++ out

/-- Whether the exception is a Python `Exception` subclass, i.e. caught by
the `except Exception` guard in `__main__`.  `SystemExit` derives from
`BaseException` only, so it is not caught. -/
def caughtByExceptHandler : PipelineError → Bool
  | .noInputs => false
  | _ => true

/-- `run(cmd)`: spawn the command, wait, capture combined output; raise
`RuntimeError` when the exit code is non-zero, else return the output. -/
def run (env : Env) (cmd : Cmd) : Except PipelineError String :=
  let proc := env.exec cmd
  if proc.returncode ≠ 0 then
    Except.error (.commandFailed proc.returncode cmd proc.stdout)
  else
    Except.ok proc.stdout

/-- `ensure_exists(path, kind)`: raise `FileNotFoundError` when the path
does not exist. -/
def ensure_exists (env : Env) (path : String) (kind : String) : Option PipelineError :=
  if env.pathExists path then none else some (.missingPath kind path)

/-- Whether a POSIX path is absolute (begins with a separator). -/
def isAbsolute (p : String) : Bool :=
  match p.data with
  | [] => false
  | c :: _ => c = '/'

/-- POSIX `Path` division: `dir / name` keeps `name` when it is absolute,
otherwise joins with a separator. -/
def pathJoin (dir name : String) : String :=
  if isAbsolute name then name else dir ++ "/" ++ name

/-- Python `f"\x7bidx:02d\x7d"` for a natural number: decimal, left-padded
with zeros to width 2. -/
def pad2 (n : Nat) : String :=
  if n < 10 then "0" ++ toString n else toString n

/-- The numbered intermediate filename `f"\x7bidx:02d\x7d.flac"`. -/
def flacName (idx : Nat) : String := pad2 idx ++ ".flac"

/-- One manifest line, `f"file '\x7bflac_out\x7d'\n"`: the path is embedded
verbatim between single quotes, with no escaping. -/
def manifestLine (flac_out : String) : String :=
  "file " ++ squoteStr ++ flac_out ++ squoteStr ++ "\n"

/-- The Normalizer's per-track command vector (source lines 47-59). -/
def transcodeCmd (wav flac_out : String) : Cmd :=
  ["ffmpeg", "-y", "-i", wav, "-c:a", "flac", "-sample_fmt", "s32", "-ar", "48000", flac_out]

/-- The Concatenator's command vector (source lines 69-85). -/
def concatCmd (list_path out_flac : String) : Cmd :=
  ["ffmpeg", "-y", "-f", "concat", "-safe", "0", "-i", list_path,
   "-c:a", "flac", "-sample_fmt", "s32", "-ar", "48000", out_flac]

/-- The characters of the last path component (after the final slash),
modelling `PurePath.name`. -/
def baseNameChars (s : List Char) : List Char :=
  (s.reverse.takeWhile (fun c => c ≠ '/')).reverse

/-- `Path(p).name` as a string. -/
def baseName (path : String) : String := ⟨baseNameChars path.data⟩

/-- Split a character list at its first dot: contents before it and after
it, or `none` when there is no dot. -/
def splitAtDot : List Char → Option (List Char × List Char)
  | [] => none
  | c :: cs =>
      if c = '.' then some ([], cs)
      else (splitAtDot cs).map (fun p => (c :: p.1, p.2))

/-- `PurePath.suffix`: the final dot-suffix of the last component, or the
empty string when the last dot is absent, leading, or trailing (CPython:
returns `name[i:]` only when `0 < i < len(name) - 1` for `i = name.rfind(".")`). -/
def pathSuffix (path : String) : String :=
  match splitAtDot (baseNameChars path.data).reverse with
  | none => ""
  | some (pre, post) =>
      if pre = [] ∨ post = [] then "" else ⟨'.' :: pre.reverse⟩

/-- Python `str.lower()`, modelled character-wise.  `Char.toLower` is
ASCII-only, which agrees with `str.lower` on every string that can
compare equal to `.mp4`. -/
def lowerAscii (s : String) : String := ⟨s.data.map Char.toLower⟩

/-- The Renderer's audio branch (source line 96): AAC at 320 kbps when the
lowercased output suffix is `.mp4`, stream copy otherwise. -/
def audioCodecArgs (output : String) : Cmd :=
  if lowerAscii (pathSuffix output) = ".mp4" then ["-c:a", "aac", "-b:a", "320k"]
  else ["-c:a", "copy"]

/-- The Renderer's command vector (source lines 97-133): the fixed NVENC
video arguments, the extension-dependent audio arguments spliced in the
middle (`*audio_codec`), and the output path last. -/
def renderCmd (cover audio output : String) : Cmd :=
  ["ffmpeg", "-y", "-loop", "1", "-framerate", toString FRAMERATE,
   "-i", cover, "-i", audio,
   "-c:v", "h264_nvenc", "-preset", "p7", "-rc", "vbr_hq", "-cq", "17",
   "-b:v", "8M", "-maxrate", "12M", "-bufsize", "24M",
   "-profile:v", "high", "-pix_fmt", "yuv420p", "-r", toString FRAMERATE]
  ++ audioCodecArgs output
  ++ ["-shortest", "-movflags", "+faststart", output]

/-- `concat_flacs(list_path, out_flac)`: one Concatenator invocation. -/
def concat_flacs (env : Env) (list_path out_flac : String) : Except PipelineError String :=
  run env (concatCmd list_path out_flac)

/-- `render_video(cover, audio, output)`: one Renderer invocation. -/
def render_video (env : Env) (cover audio output : String) : Except PipelineError String :=
  run env (renderCmd cover audio output)

/-- The Normalizer's mutable state: the `flac_paths` accumulator, the
current contents of `flac_list.txt`, and the commands spawned so far. -/
structure TState where
  flacPaths : List String
  manifest : String
  spawned : List Cmd
deriving Repr, DecidableEq

/-- The `for idx, wav in enumerate(wavs, start=1)` loop of
`transcode_wavs_to_flacs`: for each source file build the numbered
intermediate path, spawn the transcode command, and on success append
the path to the accumulator and one line to the manifest; a failed
invocation aborts immediately with the raised error. -/
def transcodeLoop (env : Env) (workdir : String) (idx : Nat) (wavs : List String)
    (st : TState) : TState × Option PipelineError :=
  match wavs with
  | [] => (st, none)
  | wav :: rest =>
      let flac_out := pathJoin workdir (flacName idx)
      let cmd := transcodeCmd wav flac_out
      match run env cmd with
      | .error e => ({ st with spawned := st.spawned ++ [cmd] }, some e)
      | .ok _ =>
          transcodeLoop env workdir (idx + 1) rest
            ⟨st.flacPaths ++ [flac_out], st.manifest ++ manifestLine flac_out,
             st.spawned ++ [cmd]⟩

/-- `transcode_wavs_to_flacs(wavs, workdir)`: truncate the manifest to
empty (`list_path.write_text("")`), then run the loop with 1-based
numbering. -/
def transcode_wavs_to_flacs (env : Env) (wavs : List String) (workdir : String) :
    TState × Option PipelineError :=
  transcodeLoop env workdir 1 wavs ⟨[], "", []⟩

/-- Lexicographic order on character lists, comparing code points — the
order Python uses to compare strings. -/
def charListLe : List Char → List Char → Bool
  | [], _ => true
  | _ :: _, [] => false
  | a :: as, b :: bs =>
      if a.toNat < b.toNat then true
      else if b.toNat < a.toNat then false
      else charListLe as bs

/-- Lexicographic order on path strings. -/
def pathLe (a b : String) : Bool := charListLe a.data b.data

/-- Stable insertion of a path into a sorted list: the new element (which
came earlier in the original list) is placed before the first element it
does not strictly exceed, so equal keys keep their original order. -/
def insertSorted (a : String) : List String → List String
  | [] => [a]
  | b :: bs => if pathLe a b then a :: b :: bs else b :: insertSorted a bs

/-- Stable lexicographic sort of path strings (extensionally the stable
sort Python's `sorted` performs). -/
def sortPaths : List String → List String
  | [] => []
  | a :: rest => insertSorted a (sortPaths rest)

/-- The source file list of `main` (source lines 151-152):
`sorted(root.glob(pattern))` filtered to regular files.  Python sorts
`Path` objects by their path strings; the embedding sorts the strings
lexicographically with a stable sort, as `sorted` does. -/
def sortedWavs (env : Env) (root pat : String) : List String :=
  (sortPaths (env.glob root pat)).filter env.isFile

/-- Observable events of a run: a spawned external command, creation of
the scratch directory, and its recursive removal (performed by
`tempfile.TemporaryDirectory` on block exit, success or failure). -/
inductive Event where
  | spawn (cmd : Cmd)
  | mkScratch (dir : String)
  | rmScratch (dir : String)
deriving Repr, DecidableEq

/-- What the `with tempfile.TemporaryDirectory()` block produces: spawned
commands in order, the final manifest contents, the `flac_paths` list,
the lines printed inside the block, and the error that escaped it, if
any. -/
structure BodyResult where
  spawned : List Cmd
  manifest : String
  flacPaths : List String
  printed : List String
  err : Option PipelineError
deriving Repr, DecidableEq

/-- The body of the `with` block (source lines 158-165): transcode all
tracks, concatenate, then render; each stage aborts the block on error. -/
def pipelineBody (env : Env) (cover outputVideo : String) (wavs : List String)
    (workdir : String) : BodyResult :=
  match transcode_wavs_to_flacs env wavs workdir with
  | (tst, some e) => ⟨tst.spawned, tst.manifest, tst.flacPaths, [], some e⟩
  | (tst, none) =>
      let listfile := pathJoin workdir "flac_list.txt"
      let concatFlac := pathJoin workdir "album_concat.flac"
      match concat_flacs env listfile concatFlac with
      | .error e => ⟨tst.spawned ++ [concatCmd listfile concatFlac], tst.manifest,
                     tst.flacPaths, [], some e⟩
      | .ok _ =>
          let renderMsg := "Rendering final video -> " ++ baseName outputVideo
          match render_video env cover concatFlac outputVideo with
          | .error e => ⟨tst.spawned ++ [concatCmd listfile concatFlac,
                          renderCmd cover concatFlac outputVideo], tst.manifest,
                         tst.flacPaths, [renderMsg], some e⟩
          | .ok _ => ⟨tst.spawned ++ [concatCmd listfile concatFlac,
                       renderCmd cover concatFlac outputVideo], tst.manifest,
                      tst.flacPaths, [renderMsg], none⟩

/-- Result of `main()`: printed stdout lines, the event trace, and the
exception that propagated out of it, if any. -/
structure RunResult where
  stdoutLines : List String
  events : List Event
  err : Option PipelineError
deriving Repr, DecidableEq

/-- `main()` (source lines 137-168): resolve and validate paths, collect
and sort the source files, then run the three stages inside the scratch
directory, which is removed when the block exits however it exits. -/
def main (env : Env) (args : Args) : RunResult :=
  let root := env.resolve args.input
  match ensure_exists env root "input directory" with
  | some e => ⟨[], [], some e⟩
  | none =>
      let cover := env.resolve (pathJoin root args.cover)
      match ensure_exists env cover "cover image" with
      | some e => ⟨[], [], some e⟩
      | none =>
          let wavs := sortedWavs env root args.pattern
          if wavs.isEmpty then ⟨[], [], some .noInputs⟩
          else
            let found := "Found " ++ toString wavs.length ++
              " WAV files. Concatenating audio..."
            let outputVideo := env.resolve (pathJoin root args.output)
            let b := pipelineBody env cover outputVideo wavs env.tmpdir
            let events := Event.mkScratch env.tmpdir ::
              (b.spawned.map Event.spawn ++ [Event.rmScratch env.tmpdir])
            match b.err with
            | some e => ⟨found :: b.printed, events, some e⟩
            | none => ⟨found :: b.printed ++
                        ["Done.", "Output video: " ++ outputVideo], events, none⟩

/-- A whole process run: exit code, stdout, stderr, event trace. -/
structure Outcome where
  exitCode : Nat
  stdoutLines : List String
  stderrLines : List String
  events : List Event
deriving Repr, DecidableEq

/-- The stderr line a propagating exception produces: the `__main__`
guard prints `f"Error: \x7bexc\x7d"` for `Exception` subclasses; a
`SystemExit` escapes the guard and the interpreter prints its bare
argument. -/
def renderedErrLine (e : PipelineError) : String :=
  if caughtByExceptHandler e then "Error: " ++ errMessage e else errMessage e

/-- The `if __name__ == "__main__"` guard (source lines 171-176): exit 0
on success; on an exception, one line on stderr and exit 1 (both for the
caught `Exception`s and for `SystemExit` carrying a string message). -/
def topLevel (env : Env) (args : Args) : Outcome :=
  let r := main env args
  match r.err with
  | none => ⟨0, r.stdoutLines, [], r.events⟩
  | some e => ⟨1, r.stdoutLines, [renderedErrLine e], r.events⟩

/-- The intermediate paths the Normalizer writes for a given source list,
numbering positions from `idx`. -/
def expectedFlacs (workdir : String) : Nat → List String → List String
  | _, [] => []
  | idx, _ :: rest => pathJoin workdir (flacName idx) :: expectedFlacs workdir (idx + 1) rest

/-- The transcode commands the Normalizer spawns for a given source list,
numbering positions from `idx`. -/
def expectedCmds (workdir : String) : Nat → List String → List Cmd
  | _, [] => []
  | idx, wav :: rest =>
      transcodeCmd wav (pathJoin workdir (flacName idx)) :: expectedCmds workdir (idx + 1) rest

/-- Drop an expected literal from the front of a character list, or fail. -/
def dropLit : List Char → List Char → Option (List Char)
  | [], s => some s
  | _ :: _, [] => none
  | a :: as, b :: bs => if a = b then dropLit as bs else none

/-- Read a single-quoted section: the characters up to the first quote,
and the remainder after it; fails when no closing quote is found. -/
def readQuoted : List Char → Option (List Char × List Char)
  | [] => none
  | c :: cs =>
      if c = squote then some ([], cs)
      else (readQuoted cs).map (fun r => (c :: r.1, r.2))

/-- Modelled from the spec: the external encoder's concat-demuxer
quoted-path line format (a `file` keyword and a single-quoted path).  A
well-formed manifest line is `file`, a space, a quote, the path (which
must itself be quote-free), a closing quote, and a newline; the parser
returns the path, and fails on anything else. -/
def parseConcatLine (line : String) : Option String :=
  (dropLit ("file ".data ++ [squote]) line.data).bind fun s =>
    (readQuoted s).bind fun cr =>
      if cr.2 = ['\n'] then some ⟨cr.1⟩ else none

/-- A process stub that always succeeds with empty output. -/
def execOk : Cmd → ProcResult := fun _ => ⟨0, ""⟩

/-- A test environment in which every path exists, the glob yields two
WAV files (unsorted), and every invocation succeeds. -/
def envAllOk : Env :=
  { pathExists := fun _ => true
    resolve := id
    glob := fun _ _ => ["/a/t2.wav", "/a/t1.wav"]
    isFile := fun _ => true
    exec := execOk
    tmpdir := "/tmp/scratch" }

/-- Default CLI arguments with input directory `/a`. -/
def argsDefault : Args := { input := "/a" }

/-- Like `envAllOk` but the glob matches nothing. -/
def envNoWavs : Env := { envAllOk with glob := fun _ _ => [] }

/-- Like `envAllOk` but no path exists. -/
def envMissingInput : Env := { envAllOk with pathExists := fun _ => false }

/-- Like `envAllOk` but every invocation fails with status 1, output
`boom`. -/
def envFail : Env := { envAllOk with exec := fun _ => ⟨1, "boom"⟩ }

/-- The manifest contents the Normalizer writes for a given source list,
numbering positions from `idx`: one `manifestLine` per intermediate, in
order. -/
def expectedManifest (workdir : String) : Nat → List String → String
  | _, [] => ""
  | idx, _ :: rest =>
      manifestLine (pathJoin workdir (flacName idx)) ++ expectedManifest workdir (idx + 1) rest

/-- The resolved input directory of a run (`root` in `main`). -/
def rootOf (env : Env) (args : Args) : String := env.resolve args.input

/-- The resolved cover path of a run (`cover` in `main`). -/
def coverOf (env : Env) (args : Args) : String :=
  env.resolve (pathJoin (rootOf env args) args.cover)

/-- The resolved output video path of a run (`output_video` in `main`). -/
def outputOf (env : Env) (args : Args) : String :=
  env.resolve (pathJoin (rootOf env args) args.output)

/-- The sorted, file-filtered source list of a run (`wavs` in `main`). -/
def wavsOf (env : Env) (args : Args) : List String :=
  sortedWavs env (rootOf env args) args.pattern

/-- The first line `main` prints once validation passed. -/
def foundLine (env : Env) (args : Args) : String :=
  "Found " ++ toString (wavsOf env args).length ++ " WAV files. Concatenating audio..."

/-- The result of the `with` block for a run. -/
def bodyOf (env : Env) (args : Args) : BodyResult :=
  pipelineBody env (coverOf env args) (outputOf env args) (wavsOf env args) env.tmpdir

/-- `run` returns the captured output when the exit status is zero. -/
theorem run_ok_of_zero (env : Env) (cmd : Cmd) (h : (env.exec cmd).returncode = 0) :
    run env cmd = Except.ok (env.exec cmd).stdout := by
  simp [run, h]

/-- `run` raises `commandFailed` with the exit status, the argument
vector and the captured output when the exit status is non-zero. -/
theorem run_error_of_nonzero (env : Env) (cmd : Cmd) (h : (env.exec cmd).returncode ≠ 0) :
    run env cmd =
      Except.error (.commandFailed (env.exec cmd).returncode cmd (env.exec cmd).stdout) := by
  simp [run, h]

/-- Folding string concatenation from a shifted accumulator. -/
theorem foldl_append_shift (l : List String) :
    ∀ (a s : String), List.foldl (· ++ ·) (s ++ a) l = s ++ List.foldl (· ++ ·) a l := by
  induction l with
  | nil => intro a s; rfl
  | cons x xs ih =>
      intro a s
      simp only [List.foldl_cons]
      rw [String.append_assoc, ih]

/-- `String.join` distributes over cons. -/
theorem join_cons (a : String) (l : List String) :
    String.join (a :: l) = a ++ String.join l := by
  have h := foldl_append_shift l "" a
  rw [String.append_empty] at h
  exact h

/-- The Normalizer writes one intermediate per source file. -/
theorem expectedFlacs_length (workdir : String) :
    ∀ (wavs : List String) (idx : Nat),
      (expectedFlacs workdir idx wavs).length = wavs.length := by
  intro wavs
  induction wavs with
  | nil => intro idx; rfl
  | cons w rest ih => intro idx; simp [expectedFlacs, ih]

/-- The intermediate paths are numbered by position from `idx`. -/
theorem expectedFlacs_eq_range (workdir : String) :
    ∀ (wavs : List String) (idx : Nat),
      expectedFlacs workdir idx wavs =
        (List.range wavs.length).map (fun i => pathJoin workdir (flacName (idx + i))) := by
  intro wavs
  induction wavs with
  | nil => intro idx; rfl
  | cons w rest ih =>
      intro idx
      simp only [expectedFlacs, List.length_cons, List.range_succ_eq_map, List.map_cons,
        List.map_map, Nat.add_zero]
      congr 1
      rw [ih (idx + 1)]
      apply List.map_congr_left
      intro a _
      show pathJoin workdir (flacName (idx + 1 + a)) = pathJoin workdir (flacName (idx + Nat.succ a))
      congr 2
      omega

/-- The expected manifest is the join of the expected lines. -/
theorem expectedManifest_eq_join (workdir : String) :
    ∀ (wavs : List String) (idx : Nat),
      expectedManifest workdir idx wavs =
        String.join ((expectedFlacs workdir idx wavs).map manifestLine) := by
  intro wavs
  induction wavs with
  | nil => intro idx; rfl
  | cons w rest ih =>
      intro idx
      simp only [expectedManifest, expectedFlacs, List.map_cons, join_cons]
      rw [ih (idx + 1)]

/-- When every expected invocation succeeds, the Normalizer loop extends
the accumulators with exactly the expected intermediates, manifest lines
and spawned commands, and reports no error. -/
theorem transcodeLoop_ok (env : Env) (workdir : String) :
    ∀ (wavs : List String) (idx : Nat) (st : TState),
      (∀ c ∈ expectedCmds workdir idx wavs, (env.exec c).returncode = 0) →
      transcodeLoop env workdir idx wavs st =
        (⟨st.flacPaths ++ expectedFlacs workdir idx wavs,
          st.manifest ++ expectedManifest workdir idx wavs,
          st.spawned ++ expectedCmds workdir idx wavs⟩, none) := by
  intro wavs
  induction wavs with
  | nil => intro idx st _; simp [transcodeLoop, expectedFlacs, expectedCmds, expectedManifest]
  | cons wav rest ih =>
      intro idx st h
      have h0 : (env.exec (transcodeCmd wav (pathJoin workdir (flacName idx)))).returncode = 0 :=
        h _ (by simp [expectedCmds])
      simp only [transcodeLoop, run_ok_of_zero env _ h0]
      rw [ih (idx + 1)
        ⟨st.flacPaths ++ [pathJoin workdir (flacName idx)],
         st.manifest ++ manifestLine (pathJoin workdir (flacName idx)),
         st.spawned ++ [transcodeCmd wav (pathJoin workdir (flacName idx))]⟩
        (fun c hc => h c (by simp only [expectedCmds, List.mem_cons]; exact Or.inr hc))]
      simp [expectedFlacs, expectedCmds, expectedManifest, List.append_assoc,
        String.append_assoc]

/-- When the invocations for the first `k` source files succeed and the
one for position `k` (0-based) fails, the Normalizer loop stops there:
the accumulators hold exactly the first `k` intermediates, manifest
lines and commands, plus the failing command in the spawned list, and
the loop reports the `commandFailed` error of the failing command. -/
theorem transcodeLoop_fail (env : Env) (workdir : String) :
    ∀ (wavs : List String) (k idx : Nat) (st : TState) (hk : k < wavs.length),
      (∀ c ∈ expectedCmds workdir idx (wavs.take k), (env.exec c).returncode = 0) →
      (env.exec (transcodeCmd (wavs.get ⟨k, hk⟩)
        (pathJoin workdir (flacName (idx + k))))).returncode ≠ 0 →
      transcodeLoop env workdir idx wavs st =
        (⟨st.flacPaths ++ expectedFlacs workdir idx (wavs.take k),
          st.manifest ++ expectedManifest workdir idx (wavs.take k),
          st.spawned ++ expectedCmds workdir idx (wavs.take k) ++
            [transcodeCmd (wavs.get ⟨k, hk⟩) (pathJoin workdir (flacName (idx + k)))]⟩,
         some (.commandFailed
           (env.exec (transcodeCmd (wavs.get ⟨k, hk⟩)
             (pathJoin workdir (flacName (idx + k))))).returncode
           (transcodeCmd (wavs.get ⟨k, hk⟩) (pathJoin workdir (flacName (idx + k))))
           (env.exec (transcodeCmd (wavs.get ⟨k, hk⟩)
             (pathJoin workdir (flacName (idx + k))))).stdout)) := by
  intro wavs
  induction wavs with
  | nil => intro k idx st hk; simp at hk
  | cons wav rest ih =>
      intro k idx st hk hok hfail
      cases k with
      | zero =>
          simp only [List.get] at hfail
          simp only [Nat.add_zero] at hfail
          simp [transcodeLoop, run_error_of_nonzero env _ hfail, expectedFlacs,
            expectedCmds, expectedManifest, List.take, List.get, Nat.add_zero]
      | succ k =>
          have h0 : (env.exec (transcodeCmd wav (pathJoin workdir (flacName idx)))).returncode = 0 := by
            apply hok
            simp [List.take_succ_cons, expectedCmds]
          simp only [transcodeLoop, run_ok_of_zero env _ h0]
          have hk2 : k < rest.length := by simpa using hk
          have hfail2 : (env.exec (transcodeCmd (rest.get ⟨k, hk2⟩)
              (pathJoin workdir (flacName (idx + 1 + k))))).returncode ≠ 0 := by
            have harith : idx + 1 + k = idx + (k + 1) := by omega
            rw [harith]
            simpa [List.get_cons_succ] using hfail
          have hok2 : ∀ c ∈ expectedCmds workdir (idx + 1) (rest.take k),
              (env.exec c).returncode = 0 := by
            intro c hc
            apply hok
            simp only [List.take_succ_cons, expectedCmds, List.mem_cons]
            exact Or.inr hc
          rw [ih k (idx + 1)
            ⟨st.flacPaths ++ [pathJoin workdir (flacName idx)],
             st.manifest ++ manifestLine (pathJoin workdir (flacName idx)),
             st.spawned ++ [transcodeCmd wav (pathJoin workdir (flacName idx))]⟩
            hk2 hok2 hfail2]
          have harith : idx + 1 + k = idx + (k + 1) := by omega
          simp [List.take_succ_cons, expectedFlacs, expectedCmds, expectedManifest,
            List.append_assoc, String.append_assoc, List.get_cons_succ, harith]

/-- Every command the Normalizer loop spawns beyond the initial state is
a transcode command for some source file at its position. -/
theorem transcodeLoop_spawned_mem (env : Env) (workdir : String) :
    ∀ (wavs : List String) (idx : Nat) (st : TState) (c : Cmd),
      c ∈ (transcodeLoop env workdir idx wavs st).1.spawned →
      c ∈ st.spawned ∨ ∃ i, ∃ h : i < wavs.length,
        c = transcodeCmd (wavs.get ⟨i, h⟩) (pathJoin workdir (flacName (idx + i))) := by
  intro wavs
  induction wavs with
  | nil =>
      intro idx st c hc
      exact Or.inl (by simpa [transcodeLoop] using hc)
  | cons wav rest ih =>
      intro idx st c hc
      cases hrun : run env (transcodeCmd wav (pathJoin workdir (flacName idx))) with
      | error e =>
          simp only [transcodeLoop, hrun] at hc
          rcases List.mem_append.mp hc with h | h
          · exact Or.inl h
          · refine Or.inr ⟨0, by simp, ?_⟩
            simpa [Nat.add_zero, List.get] using h
      | ok out =>
          simp only [transcodeLoop, hrun] at hc
          rcases ih (idx + 1) _ c hc with h | ⟨i, hi, hceq⟩
          · rcases List.mem_append.mp h with h2 | h2
            · exact Or.inl h2
            · refine Or.inr ⟨0, by simp, ?_⟩
              simpa [Nat.add_zero, List.get] using h2
          · refine Or.inr ⟨i + 1, by simpa using hi, ?_⟩
            have harith : idx + 1 + i = idx + (i + 1) := by omega
            rw [← harith]
            simpa [List.get_cons_succ] using hceq

/-- Every command the pipeline body spawns is a transcode, concat or
render command. -/
theorem pipelineBody_spawned_mem (env : Env) (cover outputVideo : String)
    (wavs : List String) (workdir : String) :
    ∀ c ∈ (pipelineBody env cover outputVideo wavs workdir).spawned,
      (∃ wav flac_out, c = transcodeCmd wav flac_out) ∨
      (∃ lp out, c = concatCmd lp out) ∨
      (∃ aud out, c = renderCmd cover aud out) := by
  intro c hc
  have htr : ∀ c ∈ (transcode_wavs_to_flacs env wavs workdir).1.spawned,
      ∃ wav flac_out, c = transcodeCmd wav flac_out := by
    intro c hc
    rcases transcodeLoop_spawned_mem env workdir wavs 1 ⟨[], "", []⟩ c hc with h | ⟨i, hi, hceq⟩
    · simp at h
    · exact ⟨wavs.get ⟨i, hi⟩, pathJoin workdir (flacName (1 + i)), hceq⟩
  unfold pipelineBody at hc
  cases htrr : transcode_wavs_to_flacs env wavs workdir with
  | mk tst terr =>
      rw [htrr] at hc
      have htst : ∀ c ∈ tst.spawned, ∃ wav flac_out, c = transcodeCmd wav flac_out := by
        intro c hc
        exact htr c (by rw [htrr]; exact hc)
      cases terr with
      | some e =>
          simp only at hc
          exact Or.inl (htst c hc)
      | none =>
          simp only at hc
          cases hcc : concat_flacs env (pathJoin workdir "flac_list.txt")
              (pathJoin workdir "album_concat.flac") with
          | error e =>
              rw [hcc] at hc
              simp only at hc
              rcases List.mem_append.mp hc with h | h
              · exact Or.inl (htst c h)
              · exact Or.inr (Or.inl ⟨_, _, by simpa using h⟩)
          | ok out =>
              rw [hcc] at hc
              cases hrr : render_video env cover (pathJoin workdir "album_concat.flac")
                  outputVideo with
              | error e =>
                  rw [hrr] at hc
                  simp only at hc
                  rcases List.mem_append.mp hc with h | h
                  · exact Or.inl (htst c h)
                  · rcases List.mem_cons.mp h with h2 | h2
                    · exact Or.inr (Or.inl ⟨_, _, h2⟩)
                    · exact Or.inr (Or.inr ⟨_, _, by simpa using h2⟩)
              | ok out2 =>
                  rw [hrr] at hc
                  simp only at hc
                  rcases List.mem_append.mp hc with h | h
                  · exact Or.inl (htst c h)
                  · rcases List.mem_cons.mp h with h2 | h2
                    · exact Or.inr (Or.inl ⟨_, _, h2⟩)
                    · exact Or.inr (Or.inr ⟨_, _, by simpa using h2⟩)

/-- A transcode command starts with the encoder name and the
unconditional-overwrite flag. -/
theorem take_two_transcode (wav flac_out : String) :
    (transcodeCmd wav flac_out).take 2 = ["ffmpeg", "-y"] := rfl

/-- A concat command starts with the encoder name and the
unconditional-overwrite flag. -/
theorem take_two_concat (list_path out_flac : String) :
    (concatCmd list_path out_flac).take 2 = ["ffmpeg", "-y"] := rfl

/-- A render command starts with the encoder name and the
unconditional-overwrite flag. -/
theorem take_two_render (cover audio output : String) :
    (renderCmd cover audio output).take 2 = ["ffmpeg", "-y"] := rfl

/-- When the input directory is absent, `main` raises the missing-path
error for it, with an empty event trace. -/
theorem main_missing_input (env : Env) (args : Args)
    (h1 : env.pathExists (rootOf env args) = false) :
    main env args = ⟨[], [], some (.missingPath "input directory" (rootOf env args))⟩ := by
  simp [main, ensure_exists, rootOf] at *
  simp [h1]

/-- When the input directory exists but the cover image is absent, `main`
raises the missing-path error for the cover, with an empty event trace. -/
theorem main_missing_cover (env : Env) (args : Args)
    (h1 : env.pathExists (rootOf env args) = true)
    (h2 : env.pathExists (coverOf env args) = false) :
    main env args = ⟨[], [], some (.missingPath "cover image" (coverOf env args))⟩ := by
  simp only [main, ensure_exists, rootOf, coverOf] at *
  simp [h1, h2]

/-- When both paths exist but no source file matches, `main` raises the
no-inputs error, with an empty event trace. -/
theorem main_no_wavs (env : Env) (args : Args)
    (h1 : env.pathExists (rootOf env args) = true)
    (h2 : env.pathExists (coverOf env args) = true)
    (h3 : (wavsOf env args).isEmpty = true) :
    main env args = ⟨[], [], some .noInputs⟩ := by
  simp only [main, ensure_exists, rootOf, coverOf, wavsOf] at *
  simp [h1, h2, h3]

/-- Once validation passes, `main` runs the pipeline body inside the
scratch directory: the event trace brackets the spawned commands with
scratch creation and removal, the error is the body's error, and on
success the final line printed names the resolved output path. -/
theorem main_validated (env : Env) (args : Args)
    (h1 : env.pathExists (rootOf env args) = true)
    (h2 : env.pathExists (coverOf env args) = true)
    (h3 : (wavsOf env args).isEmpty = false) :
    (main env args).events =
      Event.mkScratch env.tmpdir ::
        ((bodyOf env args).spawned.map Event.spawn ++ [Event.rmScratch env.tmpdir]) ∧
    (main env args).err = (bodyOf env args).err ∧
    ((bodyOf env args).err = none →
      (main env args).stdoutLines =
        foundLine env args :: (bodyOf env args).printed ++
          ["Done.", "Output video: " ++ outputOf env args]) ∧
    (∀ e, (bodyOf env args).err = some e →
      (main env args).stdoutLines = foundLine env args :: (bodyOf env args).printed) := by
  simp only [main, ensure_exists, rootOf, coverOf, wavsOf, outputOf, bodyOf, foundLine] at *
  simp only [h1, h2, h3, if_true, Bool.false_eq_true, if_false, ite_true, ite_false]
  cases h4 : (pipelineBody env (env.resolve (pathJoin (env.resolve args.input) args.cover))
      (env.resolve (pathJoin (env.resolve args.input) args.output))
      (sortedWavs env (env.resolve args.input) args.pattern) env.tmpdir).err with
  | some e => simp [h4]
  | none => simp [h4]

/-- On success the last stdout line names the resolved output path. -/
theorem main_success_last_line (env : Env) (args : Args)
    (h : (main env args).err = none) :
    (main env args).stdoutLines.getLast? =
      some ("Output video: " ++ outputOf env args) := by
  cases h1 : env.pathExists (rootOf env args) with
  | false => rw [main_missing_input env args h1] at h; simp at h
  | true =>
      cases h2 : env.pathExists (coverOf env args) with
      | false => rw [main_missing_cover env args h1 h2] at h; simp at h
      | true =>
          cases h3 : (wavsOf env args).isEmpty with
          | true => rw [main_no_wavs env args h1 h2 h3] at h; simp at h
          | false =>
              obtain ⟨-, herr2, hsucc, -⟩ := main_validated env args h1 h2 h3
              have hb : (bodyOf env args).err = none := by rw [← herr2]; exact h
              rw [hsucc hb]
              rw [show foundLine env args :: (bodyOf env args).printed ++
                  ["Done.", "Output video: " ++ outputOf env args] =
                  (foundLine env args :: ((bodyOf env args).printed ++ ["Done."])) ++
                  ["Output video: " ++ outputOf env args] by simp]
              exact List.getLast?_concat _

/-- C1 (amended): every run exits with code 0 or 1, and with 0 exactly
when no stage raised; on success nothing is written to stderr and the
final stdout line names the resolved output path; on any failure the
exit code is 1 and stderr carries a single line — carrying the
`Error: ` marker for the exceptions the top-level handler catches, but
the bare interpreter-printed message `No WAV files found.` for the
`SystemExit` raised when no source file matches. -/
theorem C1_exit_behavior (env : Env) (args : Args) :
    ((topLevel env args).exitCode = 0 ∨ (topLevel env args).exitCode = 1) ∧
    ((topLevel env args).exitCode = 0 ↔ (main env args).err = none) ∧
    ((main env args).err = none →
      (topLevel env args).stderrLines = [] ∧
      (topLevel env args).stdoutLines.getLast? =
        some ("Output video: " ++ outputOf env args)) ∧
    (∀ e, (main env args).err = some e →
      (topLevel env args).exitCode = 1 ∧
      (topLevel env args).stderrLines =
        [if caughtByExceptHandler e then "Error: " ++ errMessage e else errMessage e]) ∧
    (∀ e : PipelineError, caughtByExceptHandler e = false ↔ e = PipelineError.noInputs) := by
  have hstdout : (topLevel env args).stdoutLines = (main env args).stdoutLines := by
    cases h : (main env args).err <;> simp [topLevel, h]
  refine ⟨?_, ?_, ?_, ?_, ?_⟩
  · cases h : (main env args).err <;> simp [topLevel, h]
  · cases h : (main env args).err <;> simp [topLevel, h]
  · intro h
    refine ⟨by simp [topLevel, h], ?_⟩
    rw [hstdout]
    exact main_success_last_line env args h
  · intro e he
    exact ⟨by simp [topLevel, he], by simp [topLevel, he, renderedErrLine]⟩
  · intro e; cases e <;> simp [caughtByExceptHandler]

/-- C1 counterexample: with no matching source files the run exits with
code 1, but the single stderr line is the bare `SystemExit` message
`No WAV files found.` — no stderr line carries the `Error:` marker the
claim requires for every failure. -/
theorem C1_counterexample :
    (topLevel envNoWavs argsDefault).exitCode = 1 ∧
    (topLevel envNoWavs argsDefault).stderrLines = ["No WAV files found."] ∧
    (∀ line ∈ (topLevel envNoWavs argsDefault).stderrLines,
      line.data.take 6 ≠ ("Error:").data) := by
  exact ⟨by decide, by decide, by decide⟩

/-- C1 witness: a fully successful concrete run writes nothing to
stderr. -/
theorem C1_witness :
    (topLevel envAllOk argsDefault).stderrLines = [] :=
  ((C1_exit_behavior envAllOk argsDefault).2.2.1 (by decide)).1

/-- C3: validation precedes all external work: a missing input directory
or cover image raises the missing-path error naming it, and an empty
source list raises the no-inputs error, each with an empty event trace,
so no encoder process was spawned and no scratch directory created. -/
theorem C3_fail_fast (env : Env) (args : Args) :
    (env.pathExists (rootOf env args) = false →
      (main env args).err = some (.missingPath "input directory" (rootOf env args)) ∧
      (main env args).events = []) ∧
    (env.pathExists (rootOf env args) = true →
      env.pathExists (coverOf env args) = false →
      (main env args).err = some (.missingPath "cover image" (coverOf env args)) ∧
      (main env args).events = []) ∧
    (env.pathExists (rootOf env args) = true →
      env.pathExists (coverOf env args) = true →
      wavsOf env args = [] →
      (main env args).err = some PipelineError.noInputs ∧
      (main env args).events = []) := by
  refine ⟨fun h1 => ?_, fun h1 h2 => ?_, fun h1 h2 h3 => ?_⟩
  · rw [main_missing_input env args h1]; exact ⟨rfl, rfl⟩
  · rw [main_missing_cover env args h1 h2]; exact ⟨rfl, rfl⟩
  · rw [main_no_wavs env args h1 h2 (by simp [h3])]; exact ⟨rfl, rfl⟩

/-- C3 witness: with an absent input directory the concrete run fails
with the missing-path error and an empty event trace. -/
theorem C3_witness :
    (main envMissingInput argsDefault).err =
      some (.missingPath "input directory" "/a") ∧
    (main envMissingInput argsDefault).events = [] :=
  (C3_fail_fast envMissingInput argsDefault).1 (by decide)

/-- C4: `run` returns the captured combined output exactly when the exit
status is zero, and otherwise raises `commandFailed` carrying the exit
status, the full argument vector and the captured combined output. -/
theorem C4_run_contract (env : Env) (cmd : Cmd) :
    (run env cmd = Except.ok (env.exec cmd).stdout ↔ (env.exec cmd).returncode = 0) ∧
    ((env.exec cmd).returncode ≠ 0 →
      run env cmd = Except.error
        (.commandFailed (env.exec cmd).returncode cmd (env.exec cmd).stdout)) ∧
    (∀ e, run env cmd = Except.error e →
      (env.exec cmd).returncode ≠ 0 ∧
      e = .commandFailed (env.exec cmd).returncode cmd (env.exec cmd).stdout) ∧
    (∀ out, run env cmd = Except.ok out → out = (env.exec cmd).stdout) := by
  refine ⟨⟨?_, run_ok_of_zero env cmd⟩, run_error_of_nonzero env cmd, ?_, ?_⟩
  · intro h
    by_contra hne
    rw [run_error_of_nonzero env cmd hne] at h
    exact absurd h (by simp)
  · intro e he
    by_cases h : (env.exec cmd).returncode = 0
    · rw [run_ok_of_zero env cmd h] at he; simp at he
    · rw [run_error_of_nonzero env cmd h] at he
      simp only [Except.error.injEq] at he
      exact ⟨h, he.symm⟩
  · intro out hout
    by_cases h : (env.exec cmd).returncode = 0
    · rw [run_ok_of_zero env cmd h] at hout
      simp only [Except.ok.injEq] at hout
      exact hout.symm
    · rw [run_error_of_nonzero env cmd h] at hout; simp at hout

/-- C4 witness: a concrete failing invocation raises `commandFailed`
with status 1, the argument vector, and the output `boom`. -/
theorem C4_witness :
    run envFail ["ffmpeg", "-y"] =
      Except.error (.commandFailed 1 ["ffmpeg", "-y"] "boom") :=
  (C4_run_contract envFail ["ffmpeg", "-y"]).2.1 (by decide)

/-- C7: whenever a run creates the scratch directory, its recursive
removal is also in the trace, and is the very last event of the run —
whether the run succeeded or a stage raised. -/
theorem C7_scratch_removed (env : Env) (args : Args) :
    ∀ d, Event.mkScratch d ∈ (main env args).events →
      Event.rmScratch d ∈ (main env args).events ∧
      (main env args).events.getLast? = some (Event.rmScratch d) := by
  intro d hd
  cases h1 : env.pathExists (rootOf env args) with
  | false => rw [main_missing_input env args h1] at hd; simp at hd
  | true =>
      cases h2 : env.pathExists (coverOf env args) with
      | false => rw [main_missing_cover env args h1 h2] at hd; simp at hd
      | true =>
          cases h3 : (wavsOf env args).isEmpty with
          | true => rw [main_no_wavs env args h1 h2 h3] at hd; simp at hd
          | false =>
              obtain ⟨hev, -, -, -⟩ := main_validated env args h1 h2 h3
              rw [hev] at hd ⊢
              have hd2 : d = env.tmpdir := by
                simp only [List.mem_cons, List.mem_append, List.mem_map] at hd
                rcases hd with h | h
                · exact (Event.mkScratch.injEq d env.tmpdir).mp h
                · rcases h with ⟨c, -, hceq⟩ | h
                  · cases hceq
                  · simp at h
              subst hd2
              refine ⟨List.mem_cons_of_mem _ (List.mem_append.mpr (Or.inr (by simp))), ?_⟩
              rw [show Event.mkScratch env.tmpdir ::
                  ((bodyOf env args).spawned.map Event.spawn ++ [Event.rmScratch env.tmpdir]) =
                  (Event.mkScratch env.tmpdir :: (bodyOf env args).spawned.map Event.spawn) ++
                    [Event.rmScratch env.tmpdir] by simp]
              exact List.getLast?_concat _

/-- C7 witness: a concrete successful run removes its scratch directory
as its final event. -/
theorem C7_witness :
    Event.rmScratch "/tmp/scratch" ∈ (main envAllOk argsDefault).events ∧
    (main envAllOk argsDefault).events.getLast? =
      some (Event.rmScratch "/tmp/scratch") :=
  C7_scratch_removed envAllOk argsDefault "/tmp/scratch" (by decide)

/-- C8: every encoder invocation a run spawns begins with the encoder
name followed by the unconditional-overwrite flag `-y`, and in each of
the three command constructors the written target path is the final
argument — so existing intermediates and the existing output file are
overwritten, never appended to or versioned. -/
theorem C8_overwrite (env : Env) (args : Args) :
    (∀ c, Event.spawn c ∈ (main env args).events → c.take 2 = ["ffmpeg", "-y"]) ∧
    (∀ wav flac_out, (transcodeCmd wav flac_out).take 2 = ["ffmpeg", "-y"] ∧
      (transcodeCmd wav flac_out).getLast? = some flac_out) ∧
    (∀ list_path out_flac, (concatCmd list_path out_flac).take 2 = ["ffmpeg", "-y"] ∧
      (concatCmd list_path out_flac).getLast? = some out_flac) ∧
    (∀ cover audio output, (renderCmd cover audio output).take 2 = ["ffmpeg", "-y"] ∧
      (renderCmd cover audio output).getLast? = some output) := by
  refine ⟨?_, fun wav p => ⟨rfl, rfl⟩, fun a b => ⟨rfl, rfl⟩, fun cov aud out => ⟨rfl, ?_⟩⟩
  · intro c hc
    cases h1 : env.pathExists (rootOf env args) with
    | false => rw [main_missing_input env args h1] at hc; simp at hc
    | true =>
        cases h2 : env.pathExists (coverOf env args) with
        | false => rw [main_missing_cover env args h1 h2] at hc; simp at hc
        | true =>
            cases h3 : (wavsOf env args).isEmpty with
            | true => rw [main_no_wavs env args h1 h2 h3] at hc; simp at hc
            | false =>
                obtain ⟨hev, -, -, -⟩ := main_validated env args h1 h2 h3
                rw [hev] at hc
                have hmem : c ∈ (bodyOf env args).spawned := by
                  simp only [List.mem_cons, List.mem_append, List.mem_map] at hc
                  rcases hc with h | h
                  · cases h
                  · rcases h with ⟨a, ha, haeq⟩ | h
                    · rwa [show a = c from (Event.spawn.injEq a c).mp haeq] at ha
                    · simp at h
                rcases pipelineBody_spawned_mem env (coverOf env args) (outputOf env args)
                    (wavsOf env args) env.tmpdir c hmem with
                  ⟨w, p, rfl⟩ | ⟨a, b, rfl⟩ | ⟨a, b, rfl⟩
                · exact take_two_transcode w p
                · exact take_two_concat a b
                · exact take_two_render (coverOf env args) a b
  · unfold renderCmd
    rw [show (["-shortest", "-movflags", "+faststart", out] : List String) =
      ["-shortest", "-movflags", "+faststart"] ++ [out] from rfl]
    rw [← List.append_assoc]
    exact List.getLast?_concat _

/-- C8 witness: the first transcode command of a concrete run begins
with the overwrite flag. -/
theorem C8_witness :
    (["ffmpeg", "-y", "-i", "/a/t1.wav", "-c:a", "flac", "-sample_fmt", "s32",
      "-ar", "48000", "/tmp/scratch/01.flac"] : Cmd).take 2 = ["ffmpeg", "-y"] :=
  (C8_overwrite envAllOk argsDefault).1 _ (by decide)

/-- C2: every transcode command the Normalizer spawns requests the
lossless `flac` codec at sample format `s32` (which the encoder's FLAC
encoder writes as 24-bit, per the source docstring) and a 48 kHz sample
rate, carries the unconditional-overwrite flag `-y`, and writes to the
numbered intermediate path as its final argument. -/
theorem C2_normalizer_args (env : Env) (workdir : String) (wavs : List String) :
    ∀ c ∈ (transcode_wavs_to_flacs env wavs workdir).1.spawned,
      ∃ i, ∃ h : i < wavs.length,
        c = transcodeCmd (wavs.get ⟨i, h⟩) (pathJoin workdir (flacName (1 + i))) ∧
        c = ["ffmpeg", "-y", "-i", wavs.get ⟨i, h⟩, "-c:a", "flac", "-sample_fmt", "s32",
             "-ar", "48000", pathJoin workdir (flacName (1 + i))] := by
  intro c hc
  rcases transcodeLoop_spawned_mem env workdir wavs 1 ⟨[], "", []⟩ c hc with h | ⟨i, hi, hceq⟩
  · simp at h
  · exact ⟨i, hi, hceq, hceq⟩

/-- C2 witness: the one command of a concrete single-track run has the
stated form. -/
theorem C2_witness :
    ∃ i, ∃ h : i < (["/a/t1.wav"] : List String).length,
      (["ffmpeg", "-y", "-i", "/a/t1.wav", "-c:a", "flac", "-sample_fmt", "s32",
        "-ar", "48000", "/w/01.flac"] : Cmd)
        = transcodeCmd ((["/a/t1.wav"] : List String).get ⟨i, h⟩)
            (pathJoin "/w" (flacName (1 + i))) ∧
      (["ffmpeg", "-y", "-i", "/a/t1.wav", "-c:a", "flac", "-sample_fmt", "s32",
        "-ar", "48000", "/w/01.flac"] : Cmd)
        = ["ffmpeg", "-y", "-i", (["/a/t1.wav"] : List String).get ⟨i, h⟩, "-c:a", "flac",
           "-sample_fmt", "s32", "-ar", "48000", pathJoin "/w" (flacName (1 + i))] :=
  C2_normalizer_args envAllOk "/w" ["/a/t1.wav"] _ (by decide)

/-- C5: when every invocation succeeds on N ≥ 1 sources the Normalizer
reports no error, yields exactly N intermediates named by 1-based
zero-padded position in the given (sorted) order, and the manifest is
exactly the join of the N corresponding lines in that order; when the
invocation at position k (0-based) fails after k successes, it reports
that command's failure and the manifest holds exactly the first k
lines. -/
theorem C5_normalizer_counts (env : Env) (workdir : String) (wavs : List String)
    (hne : wavs ≠ []) :
    ((∀ c ∈ expectedCmds workdir 1 wavs, (env.exec c).returncode = 0) →
      (transcode_wavs_to_flacs env wavs workdir).2 = none ∧
      (transcode_wavs_to_flacs env wavs workdir).1.flacPaths =
        (List.range wavs.length).map (fun i => pathJoin workdir (flacName (1 + i))) ∧
      (transcode_wavs_to_flacs env wavs workdir).1.flacPaths.length = wavs.length ∧
      (transcode_wavs_to_flacs env wavs workdir).1.manifest =
        String.join ((List.range wavs.length).map
          (fun i => manifestLine (pathJoin workdir (flacName (1 + i)))))) ∧
    (∀ k, ∀ hk : k < wavs.length,
      (∀ c ∈ expectedCmds workdir 1 (wavs.take k), (env.exec c).returncode = 0) →
      (env.exec (transcodeCmd (wavs.get ⟨k, hk⟩)
        (pathJoin workdir (flacName (1 + k))))).returncode ≠ 0 →
      (∃ out, (transcode_wavs_to_flacs env wavs workdir).2 =
        some (.commandFailed
          (env.exec (transcodeCmd (wavs.get ⟨k, hk⟩)
            (pathJoin workdir (flacName (1 + k))))).returncode
          (transcodeCmd (wavs.get ⟨k, hk⟩) (pathJoin workdir (flacName (1 + k)))) out)) ∧
      (transcode_wavs_to_flacs env wavs workdir).1.manifest =
        String.join ((List.range k).map
          (fun i => manifestLine (pathJoin workdir (flacName (1 + i))))) ∧
      (transcode_wavs_to_flacs env wavs workdir).1.flacPaths.length = k) := by
  constructor
  · intro hok
    unfold transcode_wavs_to_flacs
    rw [transcodeLoop_ok env workdir wavs 1 ⟨[], "", []⟩ hok]
    refine ⟨rfl, ?_, ?_, ?_⟩
    · simp [expectedFlacs_eq_range]
    · simp [expectedFlacs_length]
    · have hmf : ("" : String) ++ expectedManifest workdir 1 wavs =
        expectedManifest workdir 1 wavs := rfl
      simp only [hmf]
      rw [expectedManifest_eq_join, expectedFlacs_eq_range]
      simp only [List.map_map]
      congr 1
  · intro k hk hok hfail
    unfold transcode_wavs_to_flacs
    rw [transcodeLoop_fail env workdir wavs k 1 ⟨[], "", []⟩ hk hok hfail]
    have hlen : (wavs.take k).length = k := by
      rw [List.length_take]; omega
    refine ⟨⟨_, rfl⟩, ?_, ?_⟩
    · have hmf : ("" : String) ++ expectedManifest workdir 1 (wavs.take k) =
        expectedManifest workdir 1 (wavs.take k) := rfl
      simp only [hmf]
      rw [expectedManifest_eq_join, expectedFlacs_eq_range, hlen]
      simp only [List.map_map]
      congr 1
    · simp [expectedFlacs_length, hlen]

/-- C5 witness: a concrete single-track run with a succeeding encoder
reports no error. -/
theorem C5_witness :
    (transcode_wavs_to_flacs envAllOk ["/a/t1.wav"] "/w").2 = none :=
  ((C5_normalizer_counts envAllOk "/w" ["/a/t1.wav"] (by decide)).1 (by decide)).1

/-- C6: the Renderer's audio branch is decided by the output path's
extension: an MP4 container selects AAC re-encoding at the fixed
320 kbps bitrate, every other extension selects stream copy — shown on
the constructed argument vector, with the spec's three examples. -/
theorem C6_renderer_branch (cover audio : String) :
    (∀ output, lowerAscii (pathSuffix output) = ".mp4" →
      renderCmd cover audio output =
        ["ffmpeg", "-y", "-loop", "1", "-framerate", "30", "-i", cover, "-i", audio,
         "-c:v", "h264_nvenc", "-preset", "p7", "-rc", "vbr_hq", "-cq", "17",
         "-b:v", "8M", "-maxrate", "12M", "-bufsize", "24M", "-profile:v", "high",
         "-pix_fmt", "yuv420p", "-r", "30", "-c:a", "aac", "-b:a", "320k",
         "-shortest", "-movflags", "+faststart", output]) ∧
    (∀ output, lowerAscii (pathSuffix output) ≠ ".mp4" →
      renderCmd cover audio output =
        ["ffmpeg", "-y", "-loop", "1", "-framerate", "30", "-i", cover, "-i", audio,
         "-c:v", "h264_nvenc", "-preset", "p7", "-rc", "vbr_hq", "-cq", "17",
         "-b:v", "8M", "-maxrate", "12M", "-bufsize", "24M", "-profile:v", "high",
         "-pix_fmt", "yuv420p", "-r", "30", "-c:a", "copy",
         "-shortest", "-movflags", "+faststart", output]) ∧
    audioCodecArgs "album.mp4" = ["-c:a", "aac", "-b:a", "320k"] ∧
    audioCodecArgs "album.flac" = ["-c:a", "copy"] ∧
    audioCodecArgs "album.mkv" = ["-c:a", "copy"] := by
  refine ⟨?_, ?_, by decide, by decide, by decide⟩
  · intro output h
    have ha : audioCodecArgs output = ["-c:a", "aac", "-b:a", "320k"] := by
      simp [audioCodecArgs, h]
    unfold renderCmd
    rw [ha]
    rfl
  · intro output h
    have ha : audioCodecArgs output = ["-c:a", "copy"] := by
      simp [audioCodecArgs, h]
    unfold renderCmd
    rw [ha]
    rfl

/-- C6 witness: the render command for `album.mp4` selects AAC-320k. -/
theorem C6_witness :
    renderCmd "/a/cover.png" "/s/album_concat.flac" "album.mp4" =
      ["ffmpeg", "-y", "-loop", "1", "-framerate", "30", "-i", "/a/cover.png", "-i",
       "/s/album_concat.flac", "-c:v", "h264_nvenc", "-preset", "p7", "-rc", "vbr_hq",
       "-cq", "17", "-b:v", "8M", "-maxrate", "12M", "-bufsize", "24M", "-profile:v",
       "high", "-pix_fmt", "yuv420p", "-r", "30", "-c:a", "aac", "-b:a", "320k",
       "-shortest", "-movflags", "+faststart", "album.mp4"] :=
  (C6_renderer_branch "/a/cover.png" "/s/album_concat.flac").1 "album.mp4" (by decide)

/-- C9: MP4 detection is case-insensitive: the branch compares the
lowercased suffix with `.mp4`, so every letter-case variant of `.mp4`
(such as `.MP4` or `.Mp4`) selects the AAC branch, and every other
suffix selects stream copy. -/
theorem C9_case_insensitive (output : String) :
    (lowerAscii (pathSuffix output) = ".mp4" →
      audioCodecArgs output = ["-c:a", "aac", "-b:a", "320k"]) ∧
    (lowerAscii (pathSuffix output) ≠ ".mp4" →
      audioCodecArgs output = ["-c:a", "copy"]) ∧
    (audioCodecArgs output = ["-c:a", "aac", "-b:a", "320k"] ∨
      audioCodecArgs output = ["-c:a", "copy"]) ∧
    audioCodecArgs "a.MP4" = ["-c:a", "aac", "-b:a", "320k"] ∧
    audioCodecArgs "a.Mp4" = ["-c:a", "aac", "-b:a", "320k"] ∧
    audioCodecArgs "a.mP4" = ["-c:a", "aac", "-b:a", "320k"] ∧
    audioCodecArgs "a.mp4" = ["-c:a", "aac", "-b:a", "320k"] ∧
    audioCodecArgs "a.mp5" = ["-c:a", "copy"] ∧
    audioCodecArgs "a.MP4X" = ["-c:a", "copy"] := by
  refine ⟨?_, ?_, ?_, by decide, by decide, by decide, by decide, by decide, by decide⟩
  · intro h; simp [audioCodecArgs, h]
  · intro h; simp [audioCodecArgs, h]
  · by_cases h : lowerAscii (pathSuffix output) = ".mp4"
    · exact Or.inl (by simp [audioCodecArgs, h])
    · exact Or.inr (by simp [audioCodecArgs, h])

/-- C9 witness: the upper-case variant `.MP4` selects the AAC branch. -/
theorem C9_witness :
    audioCodecArgs "b.MP4" = ["-c:a", "aac", "-b:a", "320k"] :=
  (C9_case_insensitive "b.MP4").1 (by decide)

/-- Dropping an expected literal from the front of itself plus a
remainder yields the remainder. -/
theorem dropLit_self (rest : List Char) :
    ∀ lit : List Char, dropLit lit (lit ++ rest) = some rest := by
  intro lit
  induction lit with
  | nil => rfl
  | cons a as ih => simp [dropLit, ih]

/-- Reading a quoted section whose content is quote-free stops exactly at
the closing quote. -/
theorem readQuoted_clean (rest : List Char) :
    ∀ content : List Char, squote ∉ content →
      readQuoted (content ++ squote :: rest) = some (content, rest) := by
  intro content
  induction content with
  | nil => intro _; simp [readQuoted]
  | cons c cs ih =>
      intro h
      have hc : ¬ c = squote := fun hh => h (by simp [hh])
      simp [readQuoted, hc, ih (fun hm => h (List.mem_cons_of_mem _ hm))]

/-- The characters of a manifest line: the fixed quoted frame with the
path embedded verbatim. -/
theorem manifestLine_data (p : String) :
    (manifestLine p).data = ['f', 'i', 'l', 'e', ' ', squote] ++ p.data ++ [squote, '\n'] := by
  show ("file " ++ squoteStr ++ p ++ squoteStr ++ "\n").data = _
  rw [String.data_append, String.data_append, String.data_append, String.data_append]
  rw [show squoteStr.data = [squote] from rfl]
  simp [List.append_assoc]

/-- C10: the manifest starts out empty, each successful transcode appends
exactly one line of the fixed quoted form — `file`, a space, a quote,
the intermediate's path embedded verbatim with no escaping, a closing
quote, and a newline; a quote-free path round-trips through the
concat-demuxer quoted-path format, while a path containing a single
quote yields a line that does not parse back to that path. -/
theorem C10_manifest_quoting :
    (∀ (env : Env) (workdir : String),
      transcode_wavs_to_flacs env [] workdir = (⟨[], "", []⟩, none)) ∧
    (∀ p : String, (manifestLine p).data =
      ['f', 'i', 'l', 'e', ' ', squote] ++ p.data ++ [squote, '\n']) ∧
    (∀ (env : Env) (workdir : String) (idx : Nat) (st : TState) (wav : String)
        (rest : List String),
      (env.exec (transcodeCmd wav (pathJoin workdir (flacName idx)))).returncode = 0 →
      transcodeLoop env workdir idx (wav :: rest) st =
        transcodeLoop env workdir (idx + 1) rest
          ⟨st.flacPaths ++ [pathJoin workdir (flacName idx)],
           st.manifest ++ manifestLine (pathJoin workdir (flacName idx)),
           st.spawned ++ [transcodeCmd wav (pathJoin workdir (flacName idx))]⟩) ∧
    (∀ p : String, squote ∉ p.data → '\n' ∉ p.data →
      parseConcatLine (manifestLine p) = some p) ∧
    (∃ p : String, squote ∈ p.data ∧ parseConcatLine (manifestLine p) ≠ some p) := by
  refine ⟨fun env workdir => rfl, manifestLine_data, ?_, ?_, ?_⟩
  · intro env workdir idx st wav rest h
    simp only [transcodeLoop, run_ok_of_zero env _ h]
  · intro p hsq _
    have hdata : (manifestLine p).data =
        ("file ".data ++ [squote]) ++ (p.data ++ squote :: ['\n']) := by
      rw [manifestLine_data]; simp [List.append_assoc]
    simp only [parseConcatLine, hdata, dropLit_self, Option.some_bind,
      readQuoted_clean ['\n'] p.data hsq]
    rfl
  · exact ⟨"/w/o" ++ squoteStr ++ "b/01.flac", by decide, by decide⟩

/-- C10 witness: a concrete quote-free intermediate path round-trips
through the manifest line format. -/
theorem C10_witness :
    parseConcatLine (manifestLine "/tmp/w/01.flac") = some "/tmp/w/01.flac" :=
  C10_manifest_quoting.2.2.2.1 "/tmp/w/01.flac" (by decide) (by decide)

end RenderAlbum
